import Mathlib

/-!
Verification of the Sipzy vault bonding-curve program
(`programs/sipzy_vault/src/lib.rs`).

The Rust source is shallowly embedded:
* `u64` values are `Nat`; checked `u64` arithmetic (`checked_add`, `checked_mul`,
  `checked_sub`, `checked_div`) is modelled by functions returning
  `Except RunErr Nat`, failing with `SipzyError.overflow` exactly where the
  source's `ok_or(SipzyError::Overflow)?` fails.
* `u128` values are `Nat`; the unchecked `u128` multiplications in the
  exponential code are modelled with an explicit range guard that fails with
  `RunErr.abort128`, mirroring a build with integer overflow checks enabled,
  where exceeding `u128` aborts the whole instruction rather than returning
  an error value.  The `u128` `checked_*` calls in the source fail with
  `SipzyError.overflow`, as in the source.
* The `while` loops of the exponential code are written with a fuel parameter
  so that they are structurally recursive and computable by `decide`; since
  the exponent at least halves every iteration, a fuel of `exp + 1` always
  suffices, and the fuel-exhaustion branch is unreachable for the wrappers
  used here.
* The external transfer capability (system-program transfers on the buy side,
  direct lamport moves on the sell side) is modelled by boolean outcome
  parameters: `true` means the external step succeeded, `false` that it
  failed and the error propagated (`RunErr.transferFailed`).  These external
  steps never touch the `Pool` record's fields.
-/

namespace Sipzy

/-- `u64::MAX`. -/
def U64MAX : Nat := 18446744073709551615

/-- `u128::MAX + 1`; products must stay strictly below this bound. -/
def U128MOD : Nat := 340282366920938463463374607431768211456

/-- Fee in basis points (`FEE_BASIS_POINTS`, 100 = 1%). -/
def FEE_BASIS_POINTS : Nat := 100

/-- Fixed-point precision for exponential calculations (`EXP_PRECISION`, 10^9). -/
def EXP_PRECISION : Nat := 1000000000

/-- The error codes of the program (`SipzyError`); only those reachable from
the embedded operations are listed. -/
inductive SipzyError where
  | invalidAmount
  | overflow
  | insufficientSupply
  | insufficientReserve
  | poolInactive
  deriving DecidableEq, Repr

/-- Outcome of a fallible step of an instruction: a returned program error, an
abort from `u128` arithmetic exceeding its range, or a failed external
transfer step whose error propagates through `?`. -/
inductive RunErr where
  | sipzy (e : SipzyError)
  | abort128
  | transferFailed
  deriving DecidableEq, Repr

/-- `PoolType`: linear (Creator) or exponential (Stream) bonding curve. -/
inductive PoolType where
  | creator
  | stream
  deriving DecidableEq, Repr

/-- The persistent `Pool` account state.  `Pubkey` fields are modelled as
`Nat`, strings as `String`, `i64` as `Int`. -/
structure Pool where
  pool_type : PoolType
  identifier : String
  display_name : String
  parent_identifier : String
  creator_wallet : Nat
  authority : Nat
  total_supply : Nat
  reserve_sol : Nat
  base_price : Nat
  curve_param : Nat
  metadata_uri : String
  bump : Nat
  created_at : Int
  is_active : Bool
  deriving DecidableEq, Repr

/-- `u64` `checked_add` followed by `ok_or(SipzyError::Overflow)`. -/
def chAdd (a b : Nat) : Except RunErr Nat :=
  if a + b ≤ U64MAX then .ok (a + b) else .error (.sipzy .overflow)

/-- `u64` `checked_sub` followed by `ok_or(SipzyError::Overflow)`. -/
def chSub (a b : Nat) : Except RunErr Nat :=
  if b ≤ a then .ok (a - b) else .error (.sipzy .overflow)

/-- `u64` `checked_mul` followed by `ok_or(SipzyError::Overflow)`. -/
def chMul (a b : Nat) : Except RunErr Nat :=
  if a * b ≤ U64MAX then .ok (a * b) else .error (.sipzy .overflow)

/-- `u64` `checked_div` followed by `ok_or(SipzyError::Overflow)`. -/
def chDiv (a b : Nat) : Except RunErr Nat :=
  if b = 0 then .error (.sipzy .overflow) else .ok (a / b)

/-- Unchecked `u128` multiplication: exceeding the `u128` range aborts. -/
def mul128 (a b : Nat) : Except RunErr Nat :=
  if a * b < U128MOD then .ok (a * b) else .error .abort128

/-- `u128` `checked_mul` followed by `ok_or(SipzyError::Overflow)`. -/
def ch128Mul (a b : Nat) : Except RunErr Nat :=
  if a * b < U128MOD then .ok (a * b) else .error (.sipzy .overflow)

/-- `u128` `checked_sub` followed by `ok_or(SipzyError::Overflow)`. -/
def ch128Sub (a b : Nat) : Except RunErr Nat :=
  if b ≤ a then .ok (a - b) else .error (.sipzy .overflow)

/-- `u128` `checked_div` followed by `ok_or(SipzyError::Overflow)`. -/
def ch128Div (a b : Nat) : Except RunErr Nat :=
  if b = 0 then .error (.sipzy .overflow) else .ok (a / b)

/-- `u128` `checked_add` followed by `ok_or(SipzyError::Overflow)`. -/
def ch128Add (a b : Nat) : Except RunErr Nat :=
  if a + b < U128MOD then .ok (a + b) else .error (.sipzy .overflow)

/-- `u64` `saturating_add`. -/
def satAdd (a b : Nat) : Nat := min (a + b) U64MAX

/-- `u64` `saturating_mul`. -/
def satMul (a b : Nat) : Nat := min (a * b) U64MAX

/-- `calculate_linear_price`: `base_price.saturating_add(supply.saturating_mul(slope))`. -/
def calculate_linear_price (supply base_price slope : Nat) : Nat :=
  satAdd base_price (satMul supply slope)

/-- `calculate_linear_integral`: closed-form cost of the linear curve over
`[start_supply, end_supply)`, every arithmetic step checked. -/
def calculate_linear_integral (start_supply end_supply base_price slope : Nat) :
    Except RunErr Nat :=
  match chSub end_supply start_supply with
  | .error e => .error e
  | .ok amount =>
    if amount = 0 then .ok 0
    else
      match chMul amount base_price with
      | .error e => .error e
      | .ok base_cost =>
        match chSub end_supply 1 with
        | .error e => .error e
        | .ok last =>
          match chAdd start_supply last with
          | .error e => .error e
          | .ok fl =>
            match chMul amount fl with
            | .error e => .error e
            | .ok prod =>
              match chDiv prod 2 with
              | .error e => .error e
              | .ok sum_indices =>
                match chMul sum_indices slope with
                | .error e => .error e
                | .ok slope_cost => chAdd base_cost slope_cost

/-- The `while exp > 0` loop of `calculate_exponential_price`: binary
exponentiation on scaled `u128` values with the in-loop guard
`result > u64::MAX as u128 * EXP_PRECISION`.  The first argument is fuel;
`exp + 1` fuel always suffices because `exp` at least halves each iteration,
and the fuel-exhaustion branch returns the current accumulator. -/
def expLoop : Nat → Nat → Nat → Nat → Except RunErr Nat
  | 0, _, r, _ => .ok r
  | fuel + 1, e, r, b =>
    if e = 0 then .ok r
    else
      match (if e % 2 = 1 then (mul128 r b).map (· / EXP_PRECISION) else .ok r) with
      | .error er => .error er
      | .ok r1 =>
        match mul128 b b with
        | .error er => .error er
        | .ok bb =>
          if U64MAX * EXP_PRECISION < r1 then .error (.sipzy .overflow)
          else expLoop fuel (e / 2) r1 (bb / EXP_PRECISION)

/-- `calculate_exponential_price`:
`base_price * ((10000 + growth_rate_bps)/10000)^supply` in fixed point,
narrowed to `u64` with an overflow check. -/
def calculate_exponential_price (supply base_price growth_rate_bps : Nat) :
    Except RunErr Nat :=
  let rate_multiplier := 10000 + growth_rate_bps
  match mul128 rate_multiplier EXP_PRECISION with
  | .error e => .error e
  | .ok rp =>
    match expLoop (supply + 1) supply EXP_PRECISION (rp / 10000) with
    | .error e => .error e
    | .ok result =>
      match mul128 base_price result with
      | .error e => .error e
      | .ok pr =>
        let price := pr / EXP_PRECISION
        if U64MAX < price then .error (.sipzy .overflow) else .ok price

/-- The `while e > 0` loop of `exp_power`: same binary exponentiation as
`expLoop` but without any range check on the accumulator. -/
def powLoop : Nat → Nat → Nat → Nat → Except RunErr Nat
  | 0, _, r, _ => .ok r
  | fuel + 1, e, r, b =>
    if e = 0 then .ok r
    else
      match (if e % 2 = 1 then (mul128 r b).map (· / EXP_PRECISION) else .ok r) with
      | .error er => .error er
      | .ok r1 =>
        match mul128 b b with
        | .error er => .error er
        | .ok bb => powLoop fuel (e / 2) r1 (bb / EXP_PRECISION)

/-- `exp_power`: `(base/scale)^exp` scaled by `EXP_PRECISION`.  A zero
`scale` would abort on division by zero; callers always pass 10000. -/
def exp_power (base exp scale : Nat) : Except RunErr Nat :=
  match mul128 base EXP_PRECISION with
  | .error e => .error e
  | .ok bp =>
    if scale = 0 then .error .abort128
    else powLoop (exp + 1) exp EXP_PRECISION (bp / scale)

/-- The `for i in start_supply..end_supply` summation loop of
`calculate_exponential_integral`, structurally recursive on the number of
remaining terms; the accumulator addition is `u128` `checked_add`. -/
def expSumLoop : Nat → Nat → Nat → Nat → Nat → Except RunErr Nat
  | 0, _, _, _, total => .ok total
  | count + 1, i, base_price, growth_rate_bps, total =>
    match calculate_exponential_price i base_price growth_rate_bps with
    | .error e => .error e
    | .ok price =>
      match ch128Add total price with
      | .error e => .error e
      | .ok total1 => expSumLoop count (i + 1) base_price growth_rate_bps total1

/-- `calculate_exponential_integral`: direct summation for at most 100 terms,
otherwise the closed-form geometric series with the `growth_rate_bps == 0`
constant-price escape. -/
def calculate_exponential_integral
    (start_supply end_supply base_price growth_rate_bps : Nat) :
    Except RunErr Nat :=
  match chSub end_supply start_supply with
  | .error e => .error e
  | .ok amount =>
    if amount = 0 then .ok 0
    else if amount ≤ 100 then
      match expSumLoop amount start_supply base_price growth_rate_bps 0 with
      | .error e => .error e
      | .ok total =>
        if U64MAX < total then .error (.sipzy .overflow) else .ok total
    else
      let r_bps := 10000 + growth_rate_bps
      match exp_power r_bps start_supply 10000 with
      | .error e => .error e
      | .ok r_start =>
        match exp_power r_bps end_supply 10000 with
        | .error e => .error e
        | .ok r_end =>
          match ch128Sub r_end r_start with
          | .error e => .error e
          | .ok diff =>
            match ch128Mul base_price diff with
            | .error e => .error e
            | .ok numerator =>
              let denominator := growth_rate_bps
              if denominator = 0 then chMul base_price amount
              else
                match ch128Mul numerator 10000 with
                | .error e => .error e
                | .ok n1 =>
                  match ch128Div n1 denominator with
                  | .error e => .error e
                  | .ok n2 =>
                    match ch128Div n2 EXP_PRECISION with
                    | .error e => .error e
                    | .ok result =>
                      if U64MAX < result then .error (.sipzy .overflow)
                      else .ok result

/-- `calculate_fee`: `fee = amount*FEE_BASIS_POINTS/10000`, `net = amount - fee`. -/
def calculate_fee (amount : Nat) : Except RunErr (Nat × Nat) :=
  match chMul amount FEE_BASIS_POINTS with
  | .error e => .error e
  | .ok m =>
    match chDiv m 10000 with
    | .error e => .error e
    | .ok fee =>
      match chSub amount fee with
      | .error e => .error e
      | .ok net => .ok (fee, net)

/-- The `match pool.pool_type` dispatch shared verbatim by `buy_tokens`,
`sell_tokens` and the quote entry points. -/
def integralFor (pt : PoolType) (start_supply end_supply base_price curve_param : Nat) :
    Except RunErr Nat :=
  match pt with
  | .creator => calculate_linear_integral start_supply end_supply base_price curve_param
  | .stream => calculate_exponential_integral start_supply end_supply base_price curve_param

/-- The externally observable steps of `buy_tokens`, in program order.
`arith` steps are checked-arithmetic computations that can fail with
`Overflow`; `transfer` steps are invocations of the external transfer
capability. -/
inductive BStep where
  | arithSupplyAdd
  | arithIntegral
  | arithFee
  | transferDeposit
  | transferFee
  | arithReserveAdd
  deriving DecidableEq, Repr

/-- Whether a `BStep` is an invocation of the transfer capability. -/
def BStep.isTransfer : BStep → Bool
  | .transferDeposit => true
  | .transferFee => true
  | _ => false

/-- The checked-arithmetic steps occurring strictly after the first transfer
invocation in a step trace. -/
def arithAfterFirstTransfer (l : List BStep) : List BStep :=
  ((l.dropWhile (fun s => !s.isTransfer)).filter (fun s => !s.isTransfer))

/-- `buy_tokens`, as the pair (result, final `Pool` state) together with the
trace of steps reached, in source order: validation, `checked_add` of the
supply, integral cost, fee split, the two transfers (outcomes `t1`, `t2`),
then the commit (whose reserve update is itself a `checked_add`).  The `Pool`
component equals the input pool except where the source assigns to its
fields. -/
def buyExec (pool : Pool) (amount : Nat) (t1 t2 : Bool) :
    (Except RunErr Unit × Pool) × List BStep :=
  if amount = 0 then ((.error (.sipzy .invalidAmount), pool), [])
  else if pool.is_active = false then ((.error (.sipzy .poolInactive), pool), [])
  else
    match chAdd pool.total_supply amount with
    | .error e => ((.error e, pool), [.arithSupplyAdd])
    | .ok end_supply =>
      match integralFor pool.pool_type pool.total_supply end_supply
          pool.base_price pool.curve_param with
      | .error e => ((.error e, pool), [.arithSupplyAdd, .arithIntegral])
      | .ok total_cost =>
        match calculate_fee total_cost with
        | .error e => ((.error e, pool), [.arithSupplyAdd, .arithIntegral, .arithFee])
        | .ok (_creator_fee, pool_deposit) =>
          if t1 = false then
            ((.error .transferFailed, pool),
             [.arithSupplyAdd, .arithIntegral, .arithFee, .transferDeposit])
          else if t2 = false then
            ((.error .transferFailed, pool),
             [.arithSupplyAdd, .arithIntegral, .arithFee, .transferDeposit, .transferFee])
          else
            match chAdd pool.reserve_sol pool_deposit with
            | .error e =>
              ((.error e, pool),
               [.arithSupplyAdd, .arithIntegral, .arithFee, .transferDeposit,
                .transferFee, .arithReserveAdd])
            | .ok new_reserve =>
              ((.ok (), { pool with reserve_sol := new_reserve, total_supply := end_supply }),
               [.arithSupplyAdd, .arithIntegral, .arithFee, .transferDeposit,
                .transferFee, .arithReserveAdd])

/-- `buy_tokens`: result and final pool state (trace dropped). -/
def buy_tokens (pool : Pool) (amount : Nat) (t1 t2 : Bool) :
    Except RunErr Unit × Pool :=
  (buyExec pool amount t1 t2).1

/-- `sell_tokens`: validation, supply check, integral refund over
`[total_supply - amount, total_supply)`, fee split, the combined reserve
check, the two lamport moves (outcomes `t1`, `t2`; these move lamport
balances, not `Pool` fields), then the commit via two checked subtractions. -/
def sell_tokens (pool : Pool) (amount : Nat) (t1 t2 : Bool) :
    Except RunErr Unit × Pool :=
  if amount = 0 then (.error (.sipzy .invalidAmount), pool)
  else if pool.is_active = false then (.error (.sipzy .poolInactive), pool)
  else if pool.total_supply < amount then (.error (.sipzy .insufficientSupply), pool)
  else
    match chSub pool.total_supply amount with
    | .error e => (.error e, pool)
    | .ok start_supply =>
      match integralFor pool.pool_type start_supply pool.total_supply
          pool.base_price pool.curve_param with
      | .error e => (.error e, pool)
      | .ok gross_refund =>
        match calculate_fee gross_refund with
        | .error e => (.error e, pool)
        | .ok (creator_fee, net_refund) =>
          match chAdd net_refund creator_fee with
          | .error e => (.error e, pool)
          | .ok threshold =>
            if pool.reserve_sol < threshold then
              (.error (.sipzy .insufficientReserve), pool)
            else if t1 = false then (.error .transferFailed, pool)
            else if t2 = false then (.error .transferFailed, pool)
            else
              match chSub pool.reserve_sol net_refund with
              | .error e => (.error e, pool)
              | .ok r1 =>
                match chSub r1 creator_fee with
                | .error e => (.error e, pool)
                | .ok r2 =>
                  (.ok (), { pool with reserve_sol := r2, total_supply := start_supply })

/-- `deactivate_pool`: sets `is_active := false` (authorization is enforced
by the account constraints, outside the embedded core). -/
def deactivate_pool (pool : Pool) : Pool := { pool with is_active := false }

/-- `reactivate_pool`: sets `is_active := true`. -/
def reactivate_pool (pool : Pool) : Pool := { pool with is_active := true }

/-- The fields of a `Pool` that trading never changes: everything except
`total_supply`, `reserve_sol` and `is_active`. -/
def SameIdentity (p q : Pool) : Prop :=
  p.pool_type = q.pool_type ∧ p.identifier = q.identifier ∧
  p.display_name = q.display_name ∧ p.parent_identifier = q.parent_identifier ∧
  p.creator_wallet = q.creator_wallet ∧ p.authority = q.authority ∧
  p.base_price = q.base_price ∧ p.curve_param = q.curve_param ∧
  p.metadata_uri = q.metadata_uri ∧ p.bump = q.bump ∧ p.created_at = q.created_at

/-- A freshly initialized Creator pool with the default linear parameters,
used to instantiate theorems at concrete inputs. -/
def samplePool : Pool :=
  { pool_type := .creator, identifier := "channel", display_name := "channel",
    parent_identifier := "", creator_wallet := 1, authority := 2,
    total_supply := 0, reserve_sol := 0, base_price := 10000000,
    curve_param := 100000, metadata_uri := "", bump := 255,
    created_at := 0, is_active := true }

/-- `samplePool` holding one token and an empty reserve. -/
def sampleSupplyPool : Pool := { samplePool with total_supply := 1 }

/-- A pool whose reserve is already at `u64::MAX`, so that the commit-time
reserve `checked_add` of a buy overflows after both transfers succeeded. -/
def fullReservePool : Pool :=
  { samplePool with reserve_sol := U64MAX, base_price := 1, curve_param := 0 }

/-- The state of `samplePool` right after a successful `buy(1)`: one token
outstanding and only the net deposit `9_900_000` (not the full gross cost
`10_000_000`) in the reserve. -/
def sampleBoughtPool : Pool :=
  { samplePool with total_supply := 1, reserve_sol := 9900000 }

/-- The pure value computed by the binary-exponentiation loops when no check
fires: the same recursion as `expLoop`/`powLoop` with the error branches
erased.  Used to reason about monotonicity of the fixed-point power. -/
def gLoopF : Nat → Nat → Nat → Nat → Nat
  | 0, _, r, _ => r
  | fuel + 1, e, r, b =>
    if e = 0 then r
    else gLoopF fuel (e / 2)
      (if e % 2 = 1 then r * b / EXP_PRECISION else r) (b * b / EXP_PRECISION)

/-- `gLoopF` with just enough fuel: the pure result of a full loop run on
exponent `e`. -/
def gIter (e r b : Nat) : Nat := gLoopF (e + 1) e r b

/-! ## Arithmetic lemmas -/

deriving instance DecidableEq for Except

/-- Gauss: twice the sum of the integers in `[s, s + k)`. -/
theorem two_mul_sum_Ico (s k : Nat) :
    2 * Finset.sum (Finset.Ico s (s + k)) (fun i => i) = k * (s + (s + k) - 1) := by
  induction k with
  | zero => simp
  | succ n ih =>
    rw [show s + (n + 1) = (s + n) + 1 from rfl,
      Finset.sum_Ico_succ_top (Nat.le_add_right s n)]
    have h1 : s + (s + n + 1) - 1 = 2 * s + n := by omega
    rw [h1, Nat.mul_add, ih]
    rcases Nat.eq_zero_or_pos (s + n) with h | h
    · have hs : s = 0 := by omega
      have hn : n = 0 := by omega
      subst hs; subst hn; simp
    · have h2 : s + (s + n) - 1 = 2 * s + n - 1 := by omega
      rw [h2]
      cases n with
      | zero => simp
      | succ m =>
        have h3 : 2 * s + (m + 1) - 1 = 2 * s + m := by omega
        rw [h3]; ring

/-- The sum of the integers in `[s, e)` as the source's `sum_indices`
closed form, with an exact division by two. -/
theorem sum_Ico_closed_form (s e : Nat) (h : s ≤ e) :
    Finset.sum (Finset.Ico s e) (fun i => i) = (e - s) * (s + (e - 1)) / 2 := by
  rcases Nat.eq_or_lt_of_le h with rfl | hlt
  · simp
  · have hk := two_mul_sum_Ico s (e - s)
    rw [show s + (e - s) = e by omega] at hk
    have h2 : s + e - 1 = s + (e - 1) := by omega
    rw [h2] at hk
    omega

/-! ## C2: the linear integral is the exact range sum -/

/-- C2: for every `start_supply ≤ end_supply` and every `base_price` and
`slope` for which no checked arithmetic step overflows `u64`,
`calculate_linear_integral` returns exactly the sum of
`base_price + slope * i` over the integers `i` in `[start_supply,
end_supply)` — the closed form's division by two being exact. -/
theorem c2_linear_integral_exact (s e bp sl : Nat)
    (hse : s ≤ e)
    (h1 : s + (e - 1) ≤ U64MAX)
    (h2 : (e - s) * (s + (e - 1)) ≤ U64MAX)
    (h3 : (e - s) * bp + (e - s) * (s + (e - 1)) / 2 * sl ≤ U64MAX) :
    calculate_linear_integral s e bp sl =
      .ok (Finset.sum (Finset.Ico s e) (fun i => bp + sl * i)) := by
  rcases Nat.eq_or_lt_of_le hse with rfl | hlt
  · simp [calculate_linear_integral, chSub]
  · have hk0 : ¬ (e - s = 0) := by omega
    have h1e : (1 : Nat) ≤ e := by omega
    have hbp : (e - s) * bp ≤ U64MAX := by
      calc (e - s) * bp ≤ (e - s) * bp + (e - s) * (s + (e - 1)) / 2 * sl :=
            Nat.le_add_right _ _
        _ ≤ U64MAX := h3
    have hsl : (e - s) * (s + (e - 1)) / 2 * sl ≤ U64MAX := by
      calc (e - s) * (s + (e - 1)) / 2 * sl
            ≤ (e - s) * bp + (e - s) * (s + (e - 1)) / 2 * sl := Nat.le_add_left _ _
        _ ≤ U64MAX := h3
    have hsum : Finset.sum (Finset.Ico s e) (fun i => bp + sl * i) =
        (e - s) * bp + (e - s) * (s + (e - 1)) / 2 * sl := by
      rw [Finset.sum_add_distrib, Finset.sum_const, Nat.card_Ico, smul_eq_mul,
        ← Finset.mul_sum, sum_Ico_closed_form s e hse]
      ring
    simp [calculate_linear_integral, chSub, chMul, chAdd, chDiv, hse, hk0, hbp,
      h1e, h1, h2, hsl, h3, hsum]

/-- Witness for C2: the spec's concrete scenario B, a buy of 10 tokens from
supply 0 at `base_price = 10_000_000`, `slope = 100_000`, costing exactly
104_500_000. -/
theorem c2_linear_integral_exact_witness :
    calculate_linear_integral 0 10 10000000 100000 = .ok 104500000 := by
  have h := c2_linear_integral_exact 0 10 10000000 100000 (by decide) (by decide)
    (by decide) (by decide)
  have hv : Finset.sum (Finset.Ico 0 10) (fun i => 10000000 + 100000 * i) =
      104500000 := by decide
  rw [hv] at h
  exact h

/-! ## C6: the fee split is exact -/

/-- C6: for every gross amount whose product with the fee rate fits `u64`,
`calculate_fee` returns `fee = gross * 100 / 10000` rounded down and
`net = gross - fee`, and `fee + net = gross` exactly. -/
theorem c6_fee_split (g : Nat) (h : g * FEE_BASIS_POINTS ≤ U64MAX) :
    calculate_fee g = .ok (g * 100 / 10000, g - g * 100 / 10000) ∧
      g * 100 / 10000 + (g - g * 100 / 10000) = g := by
  have h' : g * 100 ≤ U64MAX := by simpa [FEE_BASIS_POINTS] using h
  have hfee : g * 100 / 10000 ≤ g := by
    have := Nat.div_le_div_left (show 100 ≤ 10000 by norm_num)
      (show 0 < 100 by norm_num) (a := g * 100)
    calc g * 100 / 10000 ≤ g * 100 / 100 := this
      _ = g := Nat.mul_div_cancel g (by norm_num)
  refine ⟨?_, by omega⟩
  simp [calculate_fee, chMul, chDiv, chSub, FEE_BASIS_POINTS, h', hfee]

/-- Witness for C6: the spec's concrete scenario A, `gross = 10_000_000`
splitting into `fee = 100_000`, `net = 9_900_000`. -/
theorem c6_fee_split_witness :
    calculate_fee 10000000 = .ok (100000, 9900000) ∧
      100000 + 9900000 = 10000000 := by
  have h := c6_fee_split 10000000 (by decide)
  exact ⟨by rw [h.1], by norm_num⟩

/-! ## C1: an error leaves the pool state untouched -/

/-- C1: whenever `buy_tokens` or `sell_tokens` returns an error of any kind
(zero amount, inactive pool, insufficient supply, insufficient reserve,
arithmetic overflow, or transfer failure), no field of the `Pool` state has
been mutated: the returned pool equals the input pool. -/
theorem c1_error_no_mutation (pool : Pool) (amount : Nat) (t1 t2 : Bool) (e : RunErr) :
    ((buy_tokens pool amount t1 t2).1 = .error e →
      (buy_tokens pool amount t1 t2).2 = pool) ∧
    ((sell_tokens pool amount t1 t2).1 = .error e →
      (sell_tokens pool amount t1 t2).2 = pool) := by
  constructor
  · simp only [buy_tokens, buyExec]
    repeat' split
    all_goals simp
  · simp only [sell_tokens]
    repeat' split
    all_goals simp

/-- Witness for C1: a zero-amount buy on the sample pool errors and leaves
the pool exactly as it was. -/
theorem c1_error_no_mutation_witness :
    (buy_tokens samplePool 0 true true).1 = .error (.sipzy .invalidAmount) ∧
      (buy_tokens samplePool 0 true true).2 = samplePool :=
  ⟨by decide,
   (c1_error_no_mutation samplePool 0 true true (.sipzy .invalidAmount)).1 (by decide)⟩

/-! ## C3: checked arithmetic versus the transfer calls in buy -/

/-- C3 counterexample: on a pool whose reserve is `u64::MAX`, a buy of one
token reaches both transfers and only then fails with `Overflow` in the
commit-time reserve `checked_add` — a fallible checked-arithmetic step
runs after the first transfer call, so the claim as stated is false. -/
theorem c3_arith_after_transfer_counterexample :
    arithAfterFirstTransfer (buyExec fullReservePool 1 true true).2 =
        [BStep.arithReserveAdd] ∧
      ¬ arithAfterFirstTransfer (buyExec fullReservePool 1 true true).2 = [] ∧
      (buy_tokens fullReservePool 1 true true).1 = .error (.sipzy .overflow) := by
  decide

/-- C3 amended: in `buy_tokens`, every checked-arithmetic step for the cost
computation (supply addition, integral, fee split) runs before the first
transfer invocation; the single checked-arithmetic step after the transfers
is the commit-time reserve accumulation `reserve_sol + pool_deposit`. -/
theorem c3_arith_before_transfers (pool : Pool) (amount : Nat) (t1 t2 : Bool) :
    arithAfterFirstTransfer (buyExec pool amount t1 t2).2 = [] ∨
      arithAfterFirstTransfer (buyExec pool amount t1 t2).2 = [BStep.arithReserveAdd] := by
  simp only [buyExec]
  repeat' split
  all_goals simp [arithAfterFirstTransfer, BStep.isTransfer, List.dropWhile, List.filter]

/-! ## C9: only supply, reserve and the active flag are ever mutated -/

/-- C9: every operation preserves `pool_type`, `identifier`,
`parent_identifier`, `creator_wallet`, `authority`, `base_price` and
`curve_param` (and all other descriptive fields): buy and sell leave every
field except `total_supply` and `reserve_sol` unchanged (in particular
`is_active`), and `deactivate_pool` / `reactivate_pool` change only
`is_active`. -/
theorem c9_frame (pool : Pool) (amount : Nat) (t1 t2 : Bool) :
    (SameIdentity (buy_tokens pool amount t1 t2).2 pool ∧
      (buy_tokens pool amount t1 t2).2.is_active = pool.is_active) ∧
    (SameIdentity (sell_tokens pool amount t1 t2).2 pool ∧
      (sell_tokens pool amount t1 t2).2.is_active = pool.is_active) ∧
    (SameIdentity (deactivate_pool pool) pool ∧
      (deactivate_pool pool).total_supply = pool.total_supply ∧
      (deactivate_pool pool).reserve_sol = pool.reserve_sol ∧
      (deactivate_pool pool).is_active = false) ∧
    (SameIdentity (reactivate_pool pool) pool ∧
      (reactivate_pool pool).total_supply = pool.total_supply ∧
      (reactivate_pool pool).reserve_sol = pool.reserve_sol ∧
      (reactivate_pool pool).is_active = true) := by
  refine ⟨?_, ?_, ?_, ?_⟩
  · simp only [buy_tokens, buyExec]
    repeat' split
    all_goals simp [SameIdentity]
  · simp only [sell_tokens]
    repeat' split
    all_goals simp [SameIdentity]
  · simp [SameIdentity, deactivate_pool]
  · simp [SameIdentity, reactivate_pool]

/-! ## C8: the sell reserve check is a single combined threshold -/

/-- C8: for a sell with `0 < amount ≤ total_supply` on an active pool whose
refund and fee computations all succeed, the operation fails with
`InsufficientReserveError` exactly when `reserve_sol < net_refund + fee`
(one combined threshold), and on that failure the pool is unchanged. -/
theorem c8_sell_reserve_threshold (pool : Pool) (amount g fee net : Nat) (t1 t2 : Bool)
    (h0 : 0 < amount) (hs : amount ≤ pool.total_supply) (ha : pool.is_active = true)
    (hg : integralFor pool.pool_type (pool.total_supply - amount) pool.total_supply
        pool.base_price pool.curve_param = .ok g)
    (hf : calculate_fee g = .ok (fee, net))
    (hnf : net + fee ≤ U64MAX) :
    ((sell_tokens pool amount t1 t2).1 = .error (.sipzy .insufficientReserve) ↔
      pool.reserve_sol < net + fee) ∧
    (pool.reserve_sol < net + fee → (sell_tokens pool amount t1 t2).2 = pool) := by
  have h0' : ¬ amount = 0 := by omega
  have hs' : ¬ pool.total_supply < amount := by omega
  have hsub : chSub pool.total_supply amount = .ok (pool.total_supply - amount) := by
    simp [chSub, hs]
  simp only [sell_tokens, h0', if_false, ha, hs', hsub, hg, hf]
  rw [show chAdd net fee = .ok (net + fee) by simp [chAdd, hnf]]
  by_cases hr : pool.reserve_sol < net + fee
  · simp [hr]
  · have hn1 : chSub pool.reserve_sol net = .ok (pool.reserve_sol - net) := by
      simp [chSub]; omega
    have hn2 : chSub (pool.reserve_sol - net) fee = .ok (pool.reserve_sol - net - fee) := by
      simp [chSub]; omega
    simp [hr, hn1, hn2]
    rcases t1 <;> rcases t2 <;> simp

/-- Witness for C8: selling the single outstanding token of a pool with an
empty reserve fails with `InsufficientReserveError` and leaves the pool
unchanged. -/
theorem c8_sell_reserve_threshold_witness :
    (sell_tokens sampleSupplyPool 1 true true).1 = .error (.sipzy .insufficientReserve) ∧
      (sell_tokens sampleSupplyPool 1 true true).2 = sampleSupplyPool := by
  have h := c8_sell_reserve_threshold sampleSupplyPool 1 10000000 100000 9900000
    true true (by decide) (by decide) (by decide) (by decide) (by decide) (by decide)
  exact ⟨h.1.mpr (by decide), h.2 (by decide)⟩

/-! ## C10: an immediate round trip cannot repay the fee -/

/-- The fee never exceeds the gross amount. -/
theorem fee_div_le (g : Nat) : g * 100 / 10000 ≤ g := by
  have h := Nat.div_le_div_left (show 100 ≤ 10000 by norm_num)
    (show 0 < 100 by norm_num) (a := g * 100)
  calc g * 100 / 10000 ≤ g * 100 / 100 := h
    _ = g := Nat.mul_div_cancel g (by norm_num)

/-- Inversion of a successful `calculate_fee`. -/
theorem calculate_fee_ok (g fee net : Nat) (h : calculate_fee g = .ok (fee, net)) :
    fee = g * 100 / 10000 ∧ net = g - fee ∧ g * 100 ≤ U64MAX ∧ fee ≤ g := by
  have hfl : g * 100 / 10000 ≤ g := fee_div_le g
  have h1 : g * 100 ≤ U64MAX := by
    by_contra h1
    simp [calculate_fee, chMul, FEE_BASIS_POINTS, h1] at h
  have hc : calculate_fee g = .ok (g * 100 / 10000, g - g * 100 / 10000) := by
    simp [calculate_fee, chMul, chDiv, chSub, FEE_BASIS_POINTS, h1, hfl]
  rw [hc] at h
  simp only [Except.ok.injEq, Prod.mk.injEq] at h
  obtain ⟨hfee, hnet⟩ := h
  exact ⟨hfee.symm, by omega, h1, by omega⟩

/-- Inversion of a successful `buy_tokens`: the validations passed, both
transfers succeeded, and the final pool is the input pool with the net
deposit added to the reserve and the supply advanced. -/
theorem buy_tokens_ok (pool : Pool) (amount : Nat) (t1 t2 : Bool) (q : Pool)
    (h : buy_tokens pool amount t1 t2 = (.ok (), q)) :
    ∃ g fee net, ¬ amount = 0 ∧ pool.is_active = true ∧
      pool.total_supply + amount ≤ U64MAX ∧
      integralFor pool.pool_type pool.total_supply (pool.total_supply + amount)
        pool.base_price pool.curve_param = .ok g ∧
      calculate_fee g = .ok (fee, net) ∧
      pool.reserve_sol + net ≤ U64MAX ∧
      q = { pool with
            reserve_sol := pool.reserve_sol + net,
            total_supply := pool.total_supply + amount } := by
  by_cases ham : amount = 0
  · simp [buy_tokens, buyExec, ham] at h
  by_cases hina : pool.is_active = false
  · simp [buy_tokens, buyExec, ham, hina] at h
  have hact : pool.is_active = true := by
    revert hina; cases pool.is_active <;> simp
  by_cases hsup : pool.total_supply + amount ≤ U64MAX
  case neg => simp [buy_tokens, buyExec, ham, hina, chAdd, hsup] at h
  rcases hint : integralFor pool.pool_type pool.total_supply
      (pool.total_supply + amount) pool.base_price pool.curve_param with e | g
  · simp [buy_tokens, buyExec, ham, hina, chAdd, hsup, hint] at h
  rcases hfee : calculate_fee g with e | ⟨fee, net⟩
  · simp [buy_tokens, buyExec, ham, hina, chAdd, hsup, hint, hfee] at h
  by_cases ht1 : t1 = false
  · simp [buy_tokens, buyExec, ham, hina, chAdd, hsup, hint, hfee, ht1] at h
  by_cases ht2 : t2 = false
  · simp [buy_tokens, buyExec, ham, hina, chAdd, hsup, hint, hfee, ht1, ht2] at h
  by_cases hres : pool.reserve_sol + net ≤ U64MAX
  case neg =>
    simp [buy_tokens, buyExec, ham, hina, chAdd, hsup, hint, hfee, ht1, ht2, hres] at h
  refine ⟨g, fee, net, ham, hact, hsup, rfl, hfee, hres, ?_⟩
  simp [buy_tokens, buyExec, ham, hina, chAdd, hsup, hint, hfee, ht1, ht2, hres] at h
  rw [hact]
  exact h.symm

/-- C10: starting from a pool with an empty reserve, a successful
`buy(amount)` followed immediately by `sell(amount)` fails with
`InsufficientReserveError` whenever the fee on the gross cost is positive
(`gross_cost ≥ 100`), because the buy deposits only `gross - fee` while the
sell — over the identical supply range, hence with the same gross and fee —
requires `reserve ≥ net + fee = gross`; in general the round-trip sell
clears the reserve check exactly when the pre-buy reserve already covered
the fee. -/
theorem c10_roundtrip (pool : Pool) (amount g fee net : Nat) (pool1 : Pool)
    (hg : integralFor pool.pool_type pool.total_supply (pool.total_supply + amount)
        pool.base_price pool.curve_param = .ok g)
    (hf : calculate_fee g = .ok (fee, net))
    (hbuy : buy_tokens pool amount true true = (.ok (), pool1)) :
    (∀ t1 t2, (sell_tokens pool1 amount t1 t2 =
        (.error (.sipzy .insufficientReserve), pool1) ↔ pool.reserve_sol < fee)) ∧
    (pool.reserve_sol = 0 → 100 ≤ g →
      ∀ t1 t2, sell_tokens pool1 amount t1 t2 =
        (.error (.sipzy .insufficientReserve), pool1)) := by
  obtain ⟨g', fee', net', ham, hact, hsup, hg', hf', hres, hq⟩ :=
    buy_tokens_ok pool amount true true pool1 hbuy
  rw [hg] at hg'
  injection hg' with hgg
  subst hgg
  rw [hf] at hf'
  injection hf' with hff
  injection hff with hfee hnet
  subst hfee
  subst hnet
  obtain ⟨hfe, hne, h100, hfle⟩ := calculate_fee_ok g fee net hf
  have hgle : g ≤ U64MAX := by
    have : g ≤ g * 100 := Nat.le_mul_of_pos_right g (by norm_num)
    omega
  have hmain : ∀ t1 t2, (sell_tokens pool1 amount t1 t2 =
      (.error (.sipzy .insufficientReserve), pool1) ↔ pool.reserve_sol < fee) := by
    intro t1 t2
    subst hq
    have hs' : ¬ (pool.total_supply + amount < amount) := by omega
    have hsub : chSub (pool.total_supply + amount) amount = .ok pool.total_supply := by
      simp [chSub]
    have hadd : chAdd net fee = .ok (net + fee) := by
      simp [chAdd]; omega
    simp only [sell_tokens, ham, if_false, hact, hs', hsub, hg, hf, hadd]
    by_cases hr : pool.reserve_sol < fee
    · have : pool.reserve_sol + net < net + fee := by omega
      simp [hact, this, hr]
    · have : ¬ (pool.reserve_sol + net < net + fee) := by omega
      have hn1 : chSub (pool.reserve_sol + net) net = .ok pool.reserve_sol := by
        simp [chSub]
      have hn2 : chSub pool.reserve_sol fee = .ok (pool.reserve_sol - fee) := by
        simp [chSub]; omega
      simp [hact, this, hn1, hn2, hr]
      rcases t1 <;> rcases t2 <;> simp
  refine ⟨hmain, fun hz hg100 t1 t2 => (hmain t1 t2).mpr ?_⟩
  have : 1 ≤ g * 100 / 10000 := by omega
  omega

/-- Witness for C10: on the fresh sample pool (reserve 0), `buy(1)` succeeds
and deposits 9_900_000, after which `sell(1)` fails with
`InsufficientReserveError` because it needs the full 10_000_000. -/
theorem c10_roundtrip_witness :
    sell_tokens sampleBoughtPool 1 true true =
      (.error (.sipzy .insufficientReserve), sampleBoughtPool) := by
  have h := c10_roundtrip samplePool 1 10000000 100000 9900000 sampleBoughtPool
    (by decide) (by decide) (by decide)
  exact h.2 (by decide) (by decide) true true

/-! ## C4: where the exponential narrowing check lives -/

/-- C4 counterexample: `exp_power` applies no range check at all — on
`base = 10^9`, `exp = 3`, `scale = 10^4` it returns `10^24`, far above
`u64::MAX`, instead of signalling `Overflow`; so the claim that `exp_power`
signals `Overflow` whenever the narrowed value would exceed the target
integer range is false. -/
theorem c4_exp_power_counterexample :
    exp_power 1000000000 3 10000 = .ok 1000000000000000000000000 ∧
      U64MAX < 1000000000000000000000000 := by
  decide

/-- C4 amended: `exp_power` computes the scaled fixed-point power by binary
repeated squaring but itself performs no narrowing and never signals
`Overflow` for an out-of-`u64`-range value; the `Overflow` signal for a
narrowed value exceeding `u64`'s range is raised by its caller
`calculate_exponential_price`, whose successful results always fit `u64`. -/
theorem c4_narrowing_checked_by_caller (s bp g p : Nat)
    (h : calculate_exponential_price s bp g = .ok p) : p ≤ U64MAX := by
  simp only [calculate_exponential_price] at h
  repeat' split at h
  all_goals simp_all

/-- Witness for C4's amended claim: the spec's concrete scenario C, the
exponential point price at supply 1 with `base_price = 10^6` and 500 bps
growth, which is 1_050_000 and within `u64` range. -/
theorem c4_narrowing_checked_by_caller_witness :
    calculate_exponential_price 1 1000000 500 = .ok 1050000 ∧ 1050000 ≤ U64MAX :=
  ⟨by decide, c4_narrowing_checked_by_caller 1 1000000 500 1050000 (by decide)⟩

/-! ## C7: zero growth rate degenerates to a constant price -/

/-- The binary-exponentiation loop of `exp_power` is stationary at the
fixed-point one: squaring and multiplying by a base equal to
`EXP_PRECISION` never changes the accumulator. -/
theorem powLoop_stationary : ∀ fuel e,
    powLoop fuel e EXP_PRECISION EXP_PRECISION = .ok EXP_PRECISION := by
  intro fuel
  induction fuel with
  | zero => intro e; rfl
  | succ n ih =>
    intro e
    have hm : mul128 EXP_PRECISION EXP_PRECISION =
        .ok (EXP_PRECISION * EXP_PRECISION) := by decide
    have hd : EXP_PRECISION * EXP_PRECISION / EXP_PRECISION = EXP_PRECISION := by decide
    simp only [powLoop]
    split
    · rfl
    · by_cases hp : e % 2 = 1 <;> simp [hp, hm, hd, ih, Except.map]

/-- The checked loop of `calculate_exponential_price` is likewise stationary
at the fixed-point one, and its range check never fires there. -/
theorem expLoop_stationary : ∀ fuel e,
    expLoop fuel e EXP_PRECISION EXP_PRECISION = .ok EXP_PRECISION := by
  intro fuel
  induction fuel with
  | zero => intro e; rfl
  | succ n ih =>
    intro e
    have hm : mul128 EXP_PRECISION EXP_PRECISION =
        .ok (EXP_PRECISION * EXP_PRECISION) := by decide
    have hd : EXP_PRECISION * EXP_PRECISION / EXP_PRECISION = EXP_PRECISION := by decide
    have hck : ¬ U64MAX * EXP_PRECISION < EXP_PRECISION := by decide
    simp only [expLoop]
    split
    · rfl
    · by_cases hp : e % 2 = 1 <;> simp [hp, hm, hd, hck, ih, Except.map]

/-- With a zero growth rate, the exponential point price is exactly the base
price at every supply that fits `u64`. -/
theorem exp_price_zero_growth (i bp : Nat) (hbp : bp ≤ U64MAX) :
    calculate_exponential_price i bp 0 = .ok bp := by
  have h1 : mul128 (10000 + 0) EXP_PRECISION = .ok 10000000000000 := by decide
  have h2 : (10000000000000 : Nat) / 10000 = EXP_PRECISION := by decide
  have h3 : mul128 bp EXP_PRECISION = .ok (bp * EXP_PRECISION) := by
    have : bp * EXP_PRECISION < U128MOD := by
      calc bp * EXP_PRECISION ≤ U64MAX * EXP_PRECISION :=
            Nat.mul_le_mul_right _ hbp
        _ < U128MOD := by decide
    simp [mul128, this]
  have h4 : bp * EXP_PRECISION / EXP_PRECISION = bp :=
    Nat.mul_div_cancel bp (by decide)
  simp only [calculate_exponential_price, h1, h2, expLoop_stationary, h3, h4]
  simp [Nat.not_lt.mpr hbp]

/-- The summation loop of the exponential integral at zero growth just adds
the base price once per term. -/
theorem expSumLoop_zero_growth : ∀ (count i total bp : Nat), bp ≤ U64MAX →
    total + count * bp < U128MOD →
    expSumLoop count i bp 0 total = .ok (total + count * bp) := by
  intro count
  induction count with
  | zero => intro i total bp _ _; simp [expSumLoop]
  | succ n ih =>
    intro i total bp hbp hbound
    have hble : bp ≤ (n + 1) * bp := Nat.le_mul_of_pos_left bp (by omega)
    have hnb : n * bp + bp = (n + 1) * bp := by ring
    have hadd : ch128Add total bp = .ok (total + bp) := by
      simp [ch128Add]; omega
    simp only [expSumLoop, exp_price_zero_growth i bp hbp, hadd]
    rw [ih (i + 1) (total + bp) bp hbp (by omega)]
    congr 1
    omega

/-- C7: with `growth_rate_bps = 0`, `calculate_exponential_integral` over
`[start_supply, end_supply)` returns exactly `base_price * amount` whenever
that product fits `u64`, in both strategies: the direct summation used for
at most 100 terms and the guarded constant-price path of the closed-form
branch used for more than 100 terms. -/
theorem c7_exponential_zero_growth (s e bp : Nat) (hse : s ≤ e)
    (hbound : bp * (e - s) ≤ U64MAX) :
    calculate_exponential_integral s e bp 0 = .ok (bp * (e - s)) := by
  rcases Nat.eq_or_lt_of_le hse with rfl | hlt
  · simp [calculate_exponential_integral, chSub]
  · have hk0 : ¬ (e - s = 0) := by omega
    have hbp : bp ≤ U64MAX := by
      have h1 : bp ≤ bp * (e - s) := Nat.le_mul_of_pos_right bp (by omega)
      omega
    have hsub : chSub e s = .ok (e - s) := by simp [chSub, hse]
    by_cases hsmall : e - s ≤ 100
    · have hs0 : (0 : Nat) + (e - s) * bp < U128MOD := by
        have : (e - s) * bp ≤ U64MAX := by rw [Nat.mul_comm]; exact hbound
        have hult : U64MAX < U128MOD := by decide
        omega
      have hloop := expSumLoop_zero_growth (e - s) s 0 bp hbp hs0
      simp only [calculate_exponential_integral, hsub, hk0, if_false, hsmall,
        if_true, hloop, Nat.zero_add]
      have hle : ¬ U64MAX < (e - s) * bp := by
        have : (e - s) * bp ≤ U64MAX := by rw [Nat.mul_comm]; exact hbound
        omega
      simp [hle, Nat.mul_comm]
      exact hbound
    · have h1 : mul128 (10000 + 0) EXP_PRECISION = .ok 10000000000000 := by decide
      have h2 : (10000000000000 : Nat) / 10000 = EXP_PRECISION := by decide
      have hpow : exp_power (10000 + 0) s 10000 = .ok EXP_PRECISION := by
        simp [exp_power, h1, h2, powLoop_stationary]
      have hpow2 : exp_power (10000 + 0) e 10000 = .ok EXP_PRECISION := by
        simp [exp_power, h1, h2, powLoop_stationary]
      have hdiff : ch128Sub EXP_PRECISION EXP_PRECISION = .ok 0 := by
        simp [ch128Sub]
      have hnum : ch128Mul bp 0 = .ok 0 := by simp [ch128Mul, U128MOD]
      have hmul : chMul bp (e - s) = .ok (bp * (e - s)) := by
        simp [chMul, hbound]
      simp [calculate_exponential_integral, hsub, hk0, hsmall, hpow, hpow2,
        hdiff, hnum, hmul]

/-- Witness for C7: both strategies at concrete inputs — ten terms (direct
summation) and two hundred terms (closed-form branch with the zero-growth
guard), each returning `base_price * amount` exactly. -/
theorem c7_exponential_zero_growth_witness :
    calculate_exponential_integral 0 10 5 0 = .ok 50 ∧
      calculate_exponential_integral 0 200 5 0 = .ok 1000 := by
  have ha := c7_exponential_zero_growth 0 10 5 (by decide) (by decide)
  have hb := c7_exponential_zero_growth 0 200 5 (by decide) (by decide)
  exact ⟨by rw [ha], by rw [hb]⟩

/-! ## C5: the point price is non-decreasing in supply

The pure loop value `gIter` is studied first: with a scaled base of at least
one (`EXP_PRECISION ≤ b`), every multiply-and-rescale step is inflationary
even under truncation, and the binary carry structure of `e + 1` versus `e`
keeps the result monotone in the exponent. -/

/-- `gLoopF` does not depend on the fuel once the fuel exceeds the
exponent. -/
theorem gLoopF_irrel : ∀ f f' e r b, e < f → e < f' →
    gLoopF f e r b = gLoopF f' e r b := by
  intro f
  induction f with
  | zero => intro f' e r b h _; exact absurd h (Nat.not_lt_zero e)
  | succ n ih =>
    intro f' e r b he he'
    obtain ⟨m, rfl⟩ : ∃ m, f' = m + 1 := ⟨f' - 1, by omega⟩
    by_cases h0 : e = 0
    · simp [gLoopF, h0]
    · simp only [gLoopF, h0, if_false]
      exact ih m (e / 2) _ _ (by omega) (by omega)

/-- One unfolding of `gIter` on a nonzero exponent. -/
theorem gIter_succ (e r b : Nat) (he : e ≠ 0) :
    gIter e r b = gIter (e / 2)
      (if e % 2 = 1 then r * b / EXP_PRECISION else r) (b * b / EXP_PRECISION) := by
  have h1 : gLoopF (e + 1) e r b = gLoopF e (e / 2)
      (if e % 2 = 1 then r * b / EXP_PRECISION else r) (b * b / EXP_PRECISION) := by
    simp [gLoopF, he]
  unfold gIter
  rw [h1]
  exact gLoopF_irrel e (e / 2 + 1) (e / 2) _ _ (by omega) (by omega)

/-- The loop value is monotone in the accumulator. -/
theorem gLoopF_mono_r : ∀ fuel e r r' b, r ≤ r' →
    gLoopF fuel e r b ≤ gLoopF fuel e r' b := by
  intro fuel
  induction fuel with
  | zero => intro e r r' b h; exact h
  | succ n ih =>
    intro e r r' b h
    by_cases h0 : e = 0
    · simpa [gLoopF, h0] using h
    · simp only [gLoopF, h0, if_false]
      apply ih
      by_cases hp : e % 2 = 1
      · simp only [hp, if_true]
        exact Nat.div_le_div_right (Nat.mul_le_mul_right b h)
      · simpa [hp] using h

/-- `gIter` is monotone in the accumulator. -/
theorem gIter_mono_r (e r r' b : Nat) (h : r ≤ r') : gIter e r b ≤ gIter e r' b :=
  gLoopF_mono_r (e + 1) e r r' b h

/-- A squaring-and-rescale step never shrinks a base of at least one. -/
theorem sq_step_ge (b : Nat) (hb : EXP_PRECISION ≤ b) :
    b ≤ b * b / EXP_PRECISION := by
  rw [Nat.le_div_iff_mul_le (by decide : 0 < EXP_PRECISION)]
  exact Nat.mul_le_mul_left b hb

/-- A squaring-and-rescale step keeps the base at least one. -/
theorem sq_step_P_le (b : Nat) (hb : EXP_PRECISION ≤ b) :
    EXP_PRECISION ≤ b * b / EXP_PRECISION :=
  le_trans hb (sq_step_ge b hb)

/-- Multiplying the fixed-point one by the base and rescaling gives back the
base exactly. -/
theorem one_mul_step (b : Nat) : EXP_PRECISION * b / EXP_PRECISION = b :=
  Nat.mul_div_cancel_left b (by decide)

/-- The carry lemma: a partial product bounded by the current base is
dominated by one more squaring level applied to the fixed-point one. -/
theorem gIter_carry : ∀ e b c, EXP_PRECISION ≤ b → c ≤ b →
    gIter e c b ≤ gIter (e + 1) EXP_PRECISION b := by
  intro e
  induction e using Nat.strong_induction_on with
  | _ e ih =>
    intro b c hb hc
    by_cases h0 : e = 0
    · subst h0
      rw [gIter_succ 1 EXP_PRECISION b (by omega)]
      simp only [show (1 : Nat) % 2 = 1 from rfl, if_true, show (1 : Nat) / 2 = 0 from rfl]
      rw [one_mul_step b]
      exact hc
    · by_cases hp : e % 2 = 1
      · have hdiv : e / 2 < e := by omega
        have h1 : (e + 1) % 2 = 1 → False := by omega
        rw [gIter_succ e c b h0, gIter_succ (e + 1) EXP_PRECISION b (by omega)]
        rw [if_pos hp, if_neg h1, show (e + 1) / 2 = e / 2 + 1 by omega]
        exact ih (e / 2) hdiv (b * b / EXP_PRECISION) (c * b / EXP_PRECISION)
          (sq_step_P_le b hb)
          (Nat.div_le_div_right (Nat.mul_le_mul_right b hc))
      · have h1 : (e + 1) % 2 = 1 := by omega
        rw [gIter_succ e c b h0, gIter_succ (e + 1) EXP_PRECISION b (by omega)]
        rw [if_neg hp, if_pos h1, show (e + 1) / 2 = e / 2 by omega, one_mul_step b]
        exact gIter_mono_r (e / 2) c b (b * b / EXP_PRECISION) hc

/-- The pure loop value from the fixed-point one is non-decreasing in the
exponent whenever the scaled base is at least one. -/
theorem gIter_mono_succ (s b : Nat) (hb : EXP_PRECISION ≤ b) :
    gIter s EXP_PRECISION b ≤ gIter (s + 1) EXP_PRECISION b := by
  by_cases h0 : s = 0
  · subst h0
    rw [gIter_succ 1 EXP_PRECISION b (by omega)]
    simp only [show (1 : Nat) % 2 = 1 from rfl, if_true, show (1 : Nat) / 2 = 0 from rfl]
    rw [one_mul_step b]
    exact hb
  · by_cases hp : s % 2 = 1
    · rw [gIter_succ s EXP_PRECISION b h0, if_pos hp, one_mul_step b,
        gIter_succ (s + 1) EXP_PRECISION b (by omega),
        if_neg (show (s + 1) % 2 = 1 → False by omega),
        show (s + 1) / 2 = s / 2 + 1 by omega]
      exact gIter_carry (s / 2) (b * b / EXP_PRECISION) b
        (sq_step_P_le b hb) (sq_step_ge b hb)
    · rw [gIter_succ s EXP_PRECISION b h0, if_neg hp,
        gIter_succ (s + 1) EXP_PRECISION b (by omega),
        if_pos (show (s + 1) % 2 = 1 by omega),
        show (s + 1) / 2 = s / 2 by omega, one_mul_step b]
      exact gIter_mono_r (s / 2) EXP_PRECISION b (b * b / EXP_PRECISION) hb

/-- A successful run of the checked loop computes exactly the pure loop
value. -/
theorem expLoop_ok : ∀ fuel e r b v, expLoop fuel e r b = .ok v →
    v = gLoopF fuel e r b := by
  intro fuel
  induction fuel with
  | zero =>
    intro e r b v h
    simp only [expLoop, Except.ok.injEq] at h
    simp [gLoopF, h]
  | succ n ih =>
    intro e r b v h
    by_cases h0 : e = 0
    · simp only [expLoop, h0, if_true, Except.ok.injEq] at h
      simp [gLoopF, h0, h]
    · by_cases hbb : b * b < U128MOD
      · by_cases hp : e % 2 = 1
        · by_cases hrb : r * b < U128MOD
          · by_cases hck : U64MAX * EXP_PRECISION < r * b / EXP_PRECISION
            · simp [expLoop, h0, hp, mul128, hrb, hbb, hck, Except.map] at h
            · simp only [expLoop, h0, hp, mul128, hrb, hbb, hck, Except.map,
                if_true, if_false, ite_true, ite_false] at h
              rw [ih _ _ _ _ h]
              simp [gLoopF, h0, hp]
          · simp [expLoop, h0, hp, mul128, hrb, Except.map] at h
        · by_cases hck : U64MAX * EXP_PRECISION < r
          · simp [expLoop, h0, hp, mul128, hbb, hck, Except.map] at h
          · simp only [expLoop, h0, hp, mul128, hbb, hck, Except.map,
              if_true, if_false, ite_true, ite_false] at h
            rw [ih _ _ _ _ h]
            simp [gLoopF, h0, hp]
      · by_cases hp : e % 2 = 1
        · by_cases hrb : r * b < U128MOD
          · simp [expLoop, h0, hp, mul128, hrb, hbb, Except.map] at h
          · simp [expLoop, h0, hp, mul128, hrb, Except.map] at h
        · simp [expLoop, h0, hp, mul128, hbb, Except.map] at h

/-- C5: the point price is non-decreasing in supply for both curve
families: `calculate_linear_price` (saturating arithmetic) for every base
price and slope, and `calculate_exponential_price` for every base price and
growth rate whenever both calls return a value rather than an error,
despite the truncating fixed-point exponentiation. -/
theorem c5_price_monotone :
    (∀ supply base_price slope : Nat,
      calculate_linear_price supply base_price slope ≤
        calculate_linear_price (supply + 1) base_price slope) ∧
    (∀ supply base_price growth_rate_bps p q : Nat,
      calculate_exponential_price supply base_price growth_rate_bps = .ok p →
      calculate_exponential_price (supply + 1) base_price growth_rate_bps = .ok q →
      p ≤ q) := by
  constructor
  · intro s bp sl
    unfold calculate_linear_price satAdd satMul
    have h1 : s * sl ≤ (s + 1) * sl := Nat.mul_le_mul_right sl (Nat.le_succ s)
    exact min_le_min (Nat.add_le_add_left (min_le_min h1 le_rfl) bp) le_rfl
  · intro s bp g p q hp hq
    simp only [calculate_exponential_price] at hp hq
    by_cases hrm : (10000 + g) * EXP_PRECISION < U128MOD
    · simp only [mul128, hrm, if_true, ite_true] at hp hq
      rcases hL : expLoop (s + 1) s EXP_PRECISION
          ((10000 + g) * EXP_PRECISION / 10000) with e1 | ra
      · rw [hL] at hp; simp at hp
      rcases hL2 : expLoop (s + 1 + 1) (s + 1) EXP_PRECISION
          ((10000 + g) * EXP_PRECISION / 10000) with e2 | rb
      · rw [hL2] at hq; simp at hq
      rw [hL] at hp
      rw [hL2] at hq
      by_cases hm1 : bp * ra < U128MOD
      · by_cases hm2 : bp * rb < U128MOD
        · simp only [mul128, hm1, hm2, if_true, ite_true] at hp hq
          by_cases hk1 : U64MAX < bp * ra / EXP_PRECISION
          · simp [hk1] at hp
          by_cases hk2 : U64MAX < bp * rb / EXP_PRECISION
          · simp [hk2] at hq
          simp only [hk1, hk2, if_false, ite_false, Except.ok.injEq] at hp hq
          have hb0 : EXP_PRECISION ≤ (10000 + g) * EXP_PRECISION / 10000 := by
            have h10 : (10000 : Nat) * EXP_PRECISION / 10000 = EXP_PRECISION := by decide
            calc EXP_PRECISION = 10000 * EXP_PRECISION / 10000 := h10.symm
              _ ≤ (10000 + g) * EXP_PRECISION / 10000 :=
                  Nat.div_le_div_right (Nat.mul_le_mul_right _ (by omega))
          have hra := expLoop_ok _ _ _ _ _ hL
          have hrb := expLoop_ok _ _ _ _ _ hL2
          have hmono := gIter_mono_succ s ((10000 + g) * EXP_PRECISION / 10000) hb0
          have hle : ra ≤ rb := by
            rw [hra, hrb]
            exact hmono
          have : bp * ra / EXP_PRECISION ≤ bp * rb / EXP_PRECISION :=
            Nat.div_le_div_right (Nat.mul_le_mul_left bp hle)
          omega
        · simp [mul128, hm2] at hq
      · simp [mul128, hm1] at hp
    · simp [mul128, hrm] at hp

/-- Witness for C5: the spec's concrete scenario C — the exponential price
at supplies 0 and 1 with `base_price = 10^6` and 500 bps growth is
1_000_000 and then 1_050_000, indeed non-decreasing. -/
theorem c5_price_monotone_witness :
    calculate_exponential_price 0 1000000 500 = .ok 1000000 ∧
      calculate_exponential_price 1 1000000 500 = .ok 1050000 ∧
      1000000 ≤ 1050000 :=
  ⟨by decide, by decide,
   c5_price_monotone.2 0 1000000 500 1000000 1050000 (by decide) (by decide)⟩
end Sipzy
